import Mathlib

/-!
Verification of the asynchronous ffmpeg command-runner core of
`ffmpeg-py-gui` (`src/ffmpeg_py_gui/_internal/ffmpeg_api.py`).

We shallowly embed the pure logic of the module:

* the regex-based timestamp parsers `_parse_duration` / `_parse_time`
  (Python `re.search` with pattern `LIT (\d+):(\d+):(\d+\.\d+)`);
* the incremental line parser installed by `run_conversion`;
* the final parsers installed by `run_get_codecs` and
  `run_get_file_info`;
* the event loop of `FFmpegWorker.run` (line streaming, cooperative
  cancellation, exception-to-error translation, `finished` / `result`
  emission) as a function from the process's output lines to the list
  of emitted Qt signals.

Python `float` values produced by the timestamp parsers are modelled as
exact rationals (`ℚ`); Python strings are modelled as `List Char`.
Python `ZeroDivisionError` (and any other exception escaping the line
parser) is modelled with `Except`.
-/

namespace FfmpegPyGui

/-- Characters treated as whitespace by Python `str.split()` / `str.strip()`
(ASCII fragment: space, tab, newline, carriage return, vertical tab,
form feed). -/
def pyIsSpace (c : Char) : Bool :=
  c == ' ' || c == '\t' || c == '\n' || c == '\r' ||
  c == Char.ofNat 11 || c == Char.ofNat 12

/-- Python `str.strip()` on a list of characters: drop leading and
trailing whitespace. -/
def pyStrip (l : List Char) : List Char :=
  ((l.dropWhile pyIsSpace).reverse.dropWhile pyIsSpace).reverse

/-- Helper for `pySplit`: accumulate the current word (in reverse). -/
def pySplitAux : List Char → List Char → List (List Char)
  | [], acc => if acc = [] then [] else [acc.reverse]
  | c :: cs, acc =>
      if pyIsSpace c then
        if acc = [] then pySplitAux cs [] else acc.reverse :: pySplitAux cs []
      else pySplitAux cs (c :: acc)

/-- Python `str.split()` with no argument: split on runs of whitespace,
discarding empty fragments. -/
def pySplit (l : List Char) : List (List Char) :=
  pySplitAux l []

/-- Substring test, as Python's `needle in haystack`. -/
def containsSub (needle : List Char) : List Char → Bool
  | [] => needle.isPrefixOf []
  | c :: cs => needle.isPrefixOf (c :: cs) || containsSub needle cs

/-- Greedy run of decimal digits (`\d+` with maximal munch, which agrees
with Python regex semantics here because every `\d+` in the pattern is
followed by a non-digit token). -/
def spanDigits : List Char → List Char × List Char
  | [] => ([], [])
  | c :: cs =>
      if c.isDigit then
        let p := spanDigits cs
        (c :: p.1, p.2)
      else ([], c :: cs)

/-- Numeric value of a digit string, as Python `int`. -/
def natOfDigits (l : List Char) : ℕ :=
  l.foldl (fun acc c => 10 * acc + (c.toNat - '0'.toNat)) 0

/-- Match `(\d+):(\d+):(\d+\.\d+)` at the head of the input and return
`int(h)*3600 + int(m)*60 + float(s)` (Python floats modelled as exact
rationals). -/
def matchHMS (cs : List Char) : Option ℚ :=
  let ph := spanDigits cs
  if ph.1 = [] then none else
  match ph.2 with
  | ':' :: r2 =>
      let pm := spanDigits r2
      if pm.1 = [] then none else
      match pm.2 with
      | ':' :: r4 =>
          let ps := spanDigits r4
          if ps.1 = [] then none else
          match ps.2 with
          | '.' :: r6 =>
              let pf := spanDigits r6
              if pf.1 = [] then none else
              some ((natOfDigits ph.1 : ℚ) * 3600 + (natOfDigits pm.1 : ℚ) * 60 +
                    (natOfDigits ps.1 : ℚ) + (natOfDigits pf.1 : ℚ) / 10 ^ pf.1.length)
          | _ => none
      | _ => none
  | _ => none

/-- Try the pattern `lit(\d+):(\d+):(\d+\.\d+)` anchored at the head. -/
def matchLitHMS (lit cs : List Char) : Option ℚ :=
  if lit.isPrefixOf cs then matchHMS (cs.drop lit.length) else none

/-- Model of `re.search` for the pattern `lit(\d+):(\d+):(\d+\.\d+)`: try each
start position left to right, return the leftmost match's value. -/
def searchLitHMS (lit : List Char) : List Char → Option ℚ
  | [] => none
  | c :: cs =>
      match matchLitHMS lit (c :: cs) with
      | some v => some v
      | none => searchLitHMS lit cs

/-- The literal part of the duration regex, `"Duration: "`. -/
def durLit : List Char := "Duration: ".toList

/-- The marker checked by `"Duration:" in line`. -/
def durMark : List Char := "Duration:".toList

/-- The marker `"time="`, used both for the containment check and as the
literal part of the time regex. -/
def timeMark : List Char := "time=".toList

/-- Embedding of `FFmpegBackend._parse_duration`: `re.search(r"Duration: (\d+):(\d+):(\d+\.\d+)", line)`,
returning `int(h)*3600 + int(m)*60 + float(s)` on a match. -/
def parse_duration (line : List Char) : Option ℚ :=
  searchLitHMS durLit line

/-- Embedding of `FFmpegBackend._parse_time`: `re.search(r"time=(\d+):(\d+):(\d+\.\d+)", line)`,
returning `int(h)*3600 + int(m)*60 + float(s)` on a match. -/
def parse_time (line : List Char) : Option ℚ :=
  searchLitHMS timeMark line

/-- The duration branch of the conversion line parser: when the line
contains the marker `Duration:`, the backend field `_duration` is
unconditionally reassigned to `self._parse_duration(line)` (which may be
`none`); otherwise it is left alone. -/
def durUpdate (dur : Option ℚ) (line : List Char) : Option ℚ :=
  if containsSub durMark line then parse_duration line else dur

/-- The incremental line parser closed over by `run_conversion`
(`ffmpeg_api.py` lines 118–125).  Input: the backend's `_duration` field
and one output line.  Output on success: the new `_duration` and the
progress fraction emitted on this line, if any.  `Except.error` models a
`ZeroDivisionError` escaping the parser (Python `current / self._duration`
with `self._duration == 0.0`). -/
def conv_line_parse (dur : Option ℚ) (line : List Char) :
    Except Unit (Option ℚ × Option ℚ) :=
  let dur1 := durUpdate dur line
  if containsSub timeMark line && dur1.isSome then
    match parse_time line with
    | some current =>
        match dur1 with
        | some d =>
            if d = 0 then .error ()
            else .ok (dur1, some (min (current / d) 1))
        | none => .ok (dur1, none)
    | none => .ok (dur1, none)
  else .ok (dur1, none)

/-- One emitted Qt signal of `FFmpegWorker`, in emission order.
`ρ` is the payload type of the `result` signal. -/
inductive Ev (ρ : Type) where
  | line (s : List Char)
  | prog (q : ℚ)
  | fin (code : ℤ)
  | res (r : ρ)
  | err
deriving DecidableEq, Repr

/-- How one `FFmpegWorker.run` invocation ended its streaming loop. -/
inductive Outcome where
  | normal
  | cancelled
  | exn
deriving DecidableEq, Repr

/-- Decrement the remaining-lines-before-cancellation counter. -/
def decCancel : Option ℕ → Option ℕ
  | none => none
  | some n => some (n - 1)

/-- The streaming loop of `FFmpegWorker.run` (lines 50–60): for each
process output line, first poll the cancellation flag (`_is_running`),
then append the line to `_collected_lines`, emit `output_line`, and call
the job's line parser (which may emit one `progress` signal, or raise).
`cancelAfter = some n` models a `stop()` request that the loop observes
at its `n`-th flag poll: exactly `n` lines are processed before the
`kill`-and-`break`.  Returns the emitted events, the collected lines,
the final line-parser state, and how the loop ended. -/
def runLoop {σ ρ : Type} (lp : σ → List Char → Except Unit (σ × Option ℚ)) :
    List (List Char) → Option ℕ → σ →
    List (Ev ρ) × List (List Char) × σ × Outcome
  | [], _, s => ([], [], s, .normal)
  | l :: ls, c, s =>
      if c = some 0 then ([], [], s, .cancelled)
      else
        match lp s l with
        | .error _ => ([.line l], [l], s, .exn)
        | .ok (s', p) =>
            let rest := runLoop lp ls (decCancel c) s'
            (.line l :: (match p with | some q => [Ev.prog q] | none => []) ++ rest.1,
             l :: rest.2.1, rest.2.2.1, rest.2.2.2)

/-- Embedding of `FFmpegWorker.run` (lines 39–72) as a trace of emitted signals.
After the loop: if an exception escaped, the `except` clause emits a
single `error` signal and nothing else (in particular no `finished`).
Otherwise `process.wait()` yields `code` (for a cancelled job, whatever
exit code the forced termination produced), `finished` is emitted, and —
when a final parser is configured — the parser runs on the collected
lines and its value is emitted via `result`, even after cancellation. -/
def runWorker {σ ρ : Type} (lp : σ → List Char → Except Unit (σ × Option ℚ))
    (fp : Option (List (List Char) → ℤ → ρ))
    (lines : List (List Char)) (cancelAfter : Option ℕ) (code : ℤ) (s0 : σ) :
    List (Ev ρ) :=
  match runLoop lp lines cancelAfter s0 with
  | (evs, _, _, .exn) => evs ++ [.err]
  | (evs, coll, _, _) =>
      evs ++ [.fin code] ++
      (match fp with
       | some f => [Ev.res (f coll code)]
       | none => [])

/-- The default line parser (`lambda line: None`): no state, no progress,
never raises. -/
def default_line_parse : Unit → List Char → Except Unit (Unit × Option ℚ) :=
  fun s _ => .ok (s, none)

/-- A conversion job as started by `FFmpegBackend.run_conversion`:
the worker runs with the conversion line parser and no final parser.
`durStart` is the value of the backend's `_duration` field when the job
starts (the field is assigned `None` only in `FFmpegBackend.__init__`,
not per job). -/
def runConversionTrace (durStart : Option ℚ) (lines : List (List Char))
    (cancelAfter : Option ℕ) (code : ℤ) : List (Ev Empty) :=
  runWorker conv_line_parse none lines cancelAfter code durStart

/-- One record produced by the codec-list final parser. -/
structure CodecRec where
  codec : List Char
  flags : List Char
  description : List Char
deriving DecidableEq, Repr

/-- The six-dash separator the codec parser compares against. -/
def dashes6 : List Char := "------".toList

/-- The scanning loop of the codec-list final parser (lines 140–155):
`start_reading` is flipped by any line whose *stripped* text equals
`------`; before that flag is set lines are skipped; afterwards a line
splitting into at least three whitespace-separated tokens yields one
record (first token = flags, second = codec, rest rejoined with single
spaces and stripped = description). -/
def codecLoop : List (List Char) → Bool → List CodecRec
  | [], _ => []
  | line :: ls, start_reading =>
      let clean_line := pyStrip line
      if pyStrip clean_line = dashes6 then codecLoop ls true
      else if !start_reading then codecLoop ls start_reading
      else
        let parts := pySplit line
        if parts.length < 3 then codecLoop ls start_reading
        else
          { flags := parts.headD [],
            codec := (parts.drop 1).headD [],
            description := pyStrip (List.intercalate [' '] (parts.drop 2)) } ::
          codecLoop ls start_reading

/-- The final parser installed by `run_get_codecs` (lines 135–156):
`None` on a non-zero exit code, otherwise the records collected by the
scanning loop. -/
def run_get_codecs_final_parse (lines : List (List Char)) (exit_code : ℤ) :
    Option (List CodecRec) :=
  if exit_code ≠ 0 then none
  else some (codecLoop lines false)

/-- The final parser installed by `run_get_file_info` (lines 178–184):
`None` on a non-zero exit code; otherwise the collected lines are joined
with newlines and decoded.  `json.loads` with its `JSONDecodeError`
handler is modelled by the abstract total decoder `decode`, which
returns `none` exactly where the Python call raises
`json.JSONDecodeError`. -/
def run_get_file_info_final_parse {ρ : Type} (decode : List Char → Option ρ)
    (lines : List (List Char)) (exit_code : ℤ) : Option ρ :=
  if exit_code ≠ 0 then none
  else decode (List.intercalate ['\n'] lines)

/-- The mutable state of an `FFmpegWorker` (lines 23–34): the command,
the two parser slots, the collected-lines buffer and the cooperative
cancellation flag. -/
structure FFmpegWorker (σ ρ : Type) where
  command : List (List Char)
  line_parse : σ → List Char → Except Unit (σ × Option ℚ)
  final_parse : Option (List (List Char) → ℤ → ρ)
  collected_lines : List (List Char)
  is_running : Bool

/-- Embedding of `FFmpegWorker.__init__`: fresh worker with an empty buffer and the
running flag set. -/
def mkFFmpegWorker {σ ρ : Type} (command : List (List Char))
    (lp : σ → List Char → Except Unit (σ × Option ℚ))
    (fp : Option (List (List Char) → ℤ → ρ)) : FFmpegWorker σ ρ :=
  { command := command
    line_parse := lp
    final_parse := fp
    collected_lines := []
    is_running := true }

/-- Embedding of `FFmpegWorker.stop` (lines 74–76): clear the cooperative flag and
emit nothing.  The body is a single assignment; it raises no exception,
which the embedding reflects by being a total function. -/
def stop {σ ρ : Type} (w : FFmpegWorker σ ρ) :
    FFmpegWorker σ ρ × List (Ev ρ) :=
  ({ w with is_running := false }, [])

/-- Is the event an `output_line` emission? -/
def isLineEv {ρ : Type} : Ev ρ → Bool
  | .line _ => true
  | _ => false

/-- Is the event a `progress` emission? -/
def isProgEv {ρ : Type} : Ev ρ → Bool
  | .prog _ => true
  | _ => false

/-- Is the event a `finished` emission? -/
def isFinEv {ρ : Type} : Ev ρ → Bool
  | .fin _ => true
  | _ => false

/-- Is the event a `result` emission? -/
def isResEv {ρ : Type} : Ev ρ → Bool
  | .res _ => true
  | _ => false

/-- Is the event an `error` emission? -/
def isErrEv {ρ : Type} : Ev ρ → Bool
  | .err => true
  | _ => false

section LoopLemmas

variable {σ ρ : Type}

/-- The streaming loop only ever emits `output_line` and `progress`
signals; `finished`, `result` and `error` are emitted after it. -/
theorem runLoop_events_line_or_prog
    (lp : σ → List Char → Except Unit (σ × Option ℚ))
    (lines : List (List Char)) (c : Option ℕ) (s : σ) :
    ∀ e ∈ (runLoop (ρ := ρ) lp lines c s).1, isLineEv e = true ∨ isProgEv e = true := by
  induction lines generalizing c s with
  | nil => simp [runLoop]
  | cons l ls ih =>
      intro e he
      by_cases hc : c = some 0
      · simp [runLoop, hc] at he
      · rw [runLoop] at he
        simp only [if_neg hc] at he
        rcases hlp : lp s l with _ | ⟨s', p⟩ <;> rw [hlp] at he
        · simp at he
          subst he
          exact Or.inl rfl
        · simp at he
          rcases he with he | he
          · subst he; exact Or.inl rfl
          rcases p with _ | q <;> simp at he
          · exact ih _ _ e he
          · rcases he with he | he
            · subst he; exact Or.inr rfl
            · exact ih _ _ e he

/-- The `output_line` events of the loop are exactly the collected lines,
in order, whatever the outcome. -/
theorem runLoop_filter_line
    (lp : σ → List Char → Except Unit (σ × Option ℚ))
    (lines : List (List Char)) (c : Option ℕ) (s : σ) :
    ((runLoop (ρ := ρ) lp lines c s).1.filter isLineEv)
      = (runLoop (ρ := ρ) lp lines c s).2.1.map Ev.line := by
  induction lines generalizing c s with
  | nil => simp [runLoop]
  | cons l ls ih =>
      by_cases hc : c = some 0
      · simp [runLoop, hc]
      · rw [runLoop]
        simp only [if_neg hc]
        rcases hlp : lp s l with _ | ⟨s', p⟩
        · simp [isLineEv]
        · rcases p with _ | q <;>
            simp [isLineEv, isProgEv, List.filter_append, ih]

/-- A loop run that ends normally has collected every input line. -/
theorem runLoop_normal_coll
    (lp : σ → List Char → Except Unit (σ × Option ℚ))
    (lines : List (List Char)) (c : Option ℕ) (s : σ)
    (h : (runLoop (ρ := ρ) lp lines c s).2.2.2 = Outcome.normal) :
    (runLoop (ρ := ρ) lp lines c s).2.1 = lines := by
  induction lines generalizing c s with
  | nil => simp [runLoop]
  | cons l ls ih =>
      by_cases hc : c = some 0
      · simp [runLoop, hc] at h
      · rw [runLoop] at h ⊢
        simp only [if_neg hc] at h ⊢
        rcases hlp : lp s l with _ | ⟨s', p⟩ <;> simp only [hlp] at h ⊢
        · simp at h
        · simpa using ih _ _ h

/-- With no cancellation request, a normally-terminating run of a prefix
extends: running `xs ++ ys` first replays the run of `xs`, then continues
with `ys` from the state the prefix left behind. -/
theorem runLoop_append
    (lp : σ → List Char → Except Unit (σ × Option ℚ))
    (xs ys : List (List Char)) (s : σ)
    (h : (runLoop (ρ := ρ) lp xs none s).2.2.2 = Outcome.normal) :
    runLoop (ρ := ρ) lp (xs ++ ys) none s =
      ((runLoop (ρ := ρ) lp xs none s).1 ++
         (runLoop (ρ := ρ) lp ys none (runLoop (ρ := ρ) lp xs none s).2.2.1).1,
       (runLoop (ρ := ρ) lp xs none s).2.1 ++
         (runLoop (ρ := ρ) lp ys none (runLoop (ρ := ρ) lp xs none s).2.2.1).2.1,
       (runLoop (ρ := ρ) lp ys none (runLoop (ρ := ρ) lp xs none s).2.2.1).2.2) := by
  induction xs generalizing s with
  | nil => simp [runLoop]
  | cons x xs ih =>
      rw [runLoop] at h
      simp only [if_neg (by simp : (none : Option ℕ) ≠ some 0)] at h
      rcases hlp : lp s x with _ | ⟨s', p⟩ <;> simp only [hlp] at h
      · simp at h
      · replace h : (runLoop (ρ := ρ) lp xs none s').2.2.2 = Outcome.normal := by
          simpa [decCancel] using h
        rcases p with _ | q <;>
          simp [List.cons_append, runLoop, hlp, decCancel, ih _ h]

/-- A cancellation observed at the `N`-th flag poll truncates the run to
the first `N` lines: if those process without an exception, the loop
emits exactly their events, collects exactly them, and ends `cancelled`. -/
theorem runLoop_cancel
    (lp : σ → List Char → Except Unit (σ × Option ℚ))
    (lines : List (List Char)) (N : ℕ) (s : σ)
    (hN : N < lines.length)
    (h : (runLoop (ρ := ρ) lp (lines.take N) none s).2.2.2 = Outcome.normal) :
    runLoop (ρ := ρ) lp lines (some N) s =
      ((runLoop (ρ := ρ) lp (lines.take N) none s).1,
       (runLoop (ρ := ρ) lp (lines.take N) none s).2.1,
       (runLoop (ρ := ρ) lp (lines.take N) none s).2.2.1,
       Outcome.cancelled) := by
  induction N generalizing lines s with
  | zero =>
      rcases lines with _ | ⟨l, ls⟩
      · simp at hN
      · simp [runLoop]
  | succ n ih =>
      rcases lines with _ | ⟨l, ls⟩
      · simp at hN
      · rw [List.take_succ_cons] at h
        rw [runLoop] at h
        simp only [if_neg (by simp : (none : Option ℕ) ≠ some 0)] at h
        rcases hlp : lp s l with _ | ⟨s', p⟩ <;> simp only [hlp] at h
        · simp at h
        · replace h : (runLoop (ρ := ρ) lp (List.take n ls) none s').2.2.2
              = Outcome.normal := by
            simpa [decCancel] using h
          have hlen : n < ls.length := by simpa using hN
          rcases p with _ | q <;>
            simp [runLoop, List.take_succ_cons, hlp, decCancel, Nat.add_sub_cancel,
              ih _ _ hlen h]

/-- The default line parser streams every line, emits no progress, never
raises and never changes state. -/
theorem runLoop_default (lines : List (List Char)) (s : Unit) :
    runLoop (ρ := ρ) default_line_parse lines none s =
      (lines.map Ev.line, lines, s, Outcome.normal) := by
  induction lines with
  | nil => simp [runLoop]
  | cons l ls ih => simp [runLoop, default_line_parse, decCancel, ih]

end LoopLemmas

section ParserLemmas

/-- Greedy digit matching consumes exactly a digit block followed by a
non-digit (or end of input). -/
theorem spanDigits_append (ds rest : List Char)
    (hds : ∀ c ∈ ds, c.isDigit = true)
    (hrest : ∀ c, rest.head? = some c → c.isDigit = false) :
    spanDigits (ds ++ rest) = (ds, rest) := by
  induction ds with
  | nil =>
      rcases rest with _ | ⟨c, cs⟩
      · rfl
      · have := hrest c rfl
        simp [spanDigits, this]
  | cons d ds ih =>
      have hd : d.isDigit = true := hds d (by simp)
      have : spanDigits (ds ++ rest) = (ds, rest) :=
        ih (fun c hc => hds c (by simp [hc]))
      simp [spanDigits, hd, this]

/-- The timestamp matcher on a well-formed timestamp followed by a
non-digit remainder. -/
theorem matchHMS_eq (h m si sf post : List Char)
    (hh : h ≠ []) (hhd : ∀ c ∈ h, c.isDigit = true)
    (hm : m ≠ []) (hmd : ∀ c ∈ m, c.isDigit = true)
    (hsi : si ≠ []) (hsid : ∀ c ∈ si, c.isDigit = true)
    (hsf : sf ≠ []) (hsfd : ∀ c ∈ sf, c.isDigit = true)
    (hpost : ∀ c, post.head? = some c → c.isDigit = false) :
    matchHMS (h ++ ':' :: m ++ ':' :: si ++ '.' :: sf ++ post) =
      some ((natOfDigits h : ℚ) * 3600 + (natOfDigits m : ℚ) * 60 +
            (natOfDigits si : ℚ) + (natOfDigits sf : ℚ) / 10 ^ sf.length) := by
  have e1 : spanDigits (h ++ ':' :: (m ++ ':' :: si ++ '.' :: sf ++ post))
      = (h, ':' :: (m ++ ':' :: si ++ '.' :: sf ++ post)) :=
    spanDigits_append _ _ hhd (by intro c hc; simp at hc; subst hc; rfl)
  have e2 : spanDigits (m ++ ':' :: (si ++ '.' :: sf ++ post))
      = (m, ':' :: (si ++ '.' :: sf ++ post)) :=
    spanDigits_append _ _ hmd (by intro c hc; simp at hc; subst hc; rfl)
  have e3 : spanDigits (si ++ '.' :: (sf ++ post))
      = (si, '.' :: (sf ++ post)) :=
    spanDigits_append _ _ hsid (by intro c hc; simp at hc; subst hc; rfl)
  have e4 : spanDigits (sf ++ post) = (sf, post) :=
    spanDigits_append _ _ hsfd hpost
  rw [matchHMS]
  simp only [List.append_assoc, List.cons_append] at e1 e2 e3 ⊢
  rw [e1]
  simp [hh, hm, hsi, hsf, e2, e3, e4]

/-- The search skips over a prefix that never contains the pattern's
leading character. -/
theorem searchLitHMS_append (a : Char) (lit pre rest : List Char)
    (hpre : a ∉ pre) :
    searchLitHMS (a :: lit) (pre ++ rest) = searchLitHMS (a :: lit) rest := by
  induction pre with
  | nil => rfl
  | cons c cs ih =>
      have hca : (a == c) = false := by
        simp only [beq_eq_false_iff_ne, ne_eq]
        intro hE
        exact hpre (by simp [hE])
      rcases rest with _ | ⟨r, rs⟩
      · rcases hcs : cs ++ ([] : List Char) with _ | _ <;>
          simp_all [searchLitHMS, matchLitHMS, List.isPrefixOf]
      · simp only [List.cons_append, searchLitHMS, matchLitHMS, List.isPrefixOf, hca,
          Bool.false_and, Bool.false_eq_true, if_false, if_neg]
        exact ih (fun hmem => hpre (by simp [hmem]))

/-- The search, at a position where the literal matches, returns the
timestamp match made there, when that match succeeds. -/
theorem searchLitHMS_here (a : Char) (lit tail : List Char) (v : ℚ)
    (hv : matchHMS tail = some v) :
    searchLitHMS (a :: lit) ((a :: lit) ++ tail) = some v := by
  have hpre : (a :: lit).isPrefixOf ((a :: lit) ++ tail) = true := by
    rw [List.isPrefixOf_iff_prefix]
    exact List.prefix_append _ _
  have hdrop : ((a :: lit) ++ tail).drop (a :: lit).length = tail :=
    List.drop_left _ _
  rw [List.cons_append, searchLitHMS]
  rw [← List.cons_append]
  rw [matchLitHMS, if_pos hpre, hdrop, hv]

/-- A successful `re.search` means some suffix of the line matches the
full pattern at its head. -/
theorem searchLitHMS_some (lit line : List Char) (v : ℚ)
    (hv : searchLitHMS lit line = some v) :
    ∃ tail, tail <:+ line ∧ matchLitHMS lit tail = some v := by
  induction line with
  | nil => simp [searchLitHMS] at hv
  | cons c cs ih =>
      rw [searchLitHMS] at hv
      rcases hm : matchLitHMS lit (c :: cs) with _ | w
      · rw [hm] at hv
        obtain ⟨tail, hsuf, htl⟩ := ih hv
        exact ⟨tail, hsuf.trans (List.suffix_cons c cs), htl⟩
      · rw [hm] at hv
        simp only [Option.some.injEq] at hv
        subst hv
        exact ⟨c :: cs, List.suffix_refl _, hm⟩

/-- A line on which `re.search` fails for the literal's absence yields
no value. -/
theorem searchLitHMS_none (lit line : List Char)
    (hln : containsSub lit line = false) :
    searchLitHMS lit line = none := by
  induction line with
  | nil => rfl
  | cons c cs ih =>
      rw [containsSub] at hln
      simp only [Bool.or_eq_false_iff] at hln
      rw [searchLitHMS, matchLitHMS, if_neg (by simp [hln.1]), ih hln.2]

/-- The search for `lit(\d+):(\d+):(\d+\.\d+)` on a line made of a
prefix free of the literal's first character, the literal, a well-formed
timestamp and a non-digit-initial suffix finds the timestamp. -/
theorem searchLitHMS_wf (a : Char) (lit' pre h m si sf post : List Char)
    (hpre : a ∉ pre)
    (hh : h ≠ []) (hhd : ∀ c ∈ h, c.isDigit = true)
    (hm : m ≠ []) (hmd : ∀ c ∈ m, c.isDigit = true)
    (hsi : si ≠ []) (hsid : ∀ c ∈ si, c.isDigit = true)
    (hsf : sf ≠ []) (hsfd : ∀ c ∈ sf, c.isDigit = true)
    (hpost : ∀ c, post.head? = some c → c.isDigit = false) :
    searchLitHMS (a :: lit')
        (pre ++ (a :: lit') ++ (h ++ ':' :: m ++ ':' :: si ++ '.' :: sf ++ post))
      = some ((natOfDigits h : ℚ) * 3600 + (natOfDigits m : ℚ) * 60 +
              (natOfDigits si : ℚ) + (natOfDigits sf : ℚ) / 10 ^ sf.length) := by
  rw [List.append_assoc, searchLitHMS_append a lit' pre _ hpre]
  exact searchLitHMS_here a lit' _ _
    (matchHMS_eq h m si sf post hh hhd hm hmd hsi hsid hsf hsfd hpost)

/-- Value of `_parse_duration` on a well-formed `Duration:`-line. -/
theorem parse_duration_wf (pre h m si sf post : List Char)
    (hpre : 'D' ∉ pre)
    (hh : h ≠ []) (hhd : ∀ c ∈ h, c.isDigit = true)
    (hm : m ≠ []) (hmd : ∀ c ∈ m, c.isDigit = true)
    (hsi : si ≠ []) (hsid : ∀ c ∈ si, c.isDigit = true)
    (hsf : sf ≠ []) (hsfd : ∀ c ∈ sf, c.isDigit = true)
    (hpost : ∀ c, post.head? = some c → c.isDigit = false) :
    parse_duration (pre ++ durLit ++ (h ++ ':' :: m ++ ':' :: si ++ '.' :: sf ++ post))
      = some ((natOfDigits h : ℚ) * 3600 + (natOfDigits m : ℚ) * 60 +
              (natOfDigits si : ℚ) + (natOfDigits sf : ℚ) / 10 ^ sf.length) :=
  searchLitHMS_wf 'D' "uration: ".toList pre h m si sf post hpre
    hh hhd hm hmd hsi hsid hsf hsfd hpost

/-- Value of `_parse_time` on a well-formed `time=`-line. -/
theorem parse_time_wf (pre h m si sf post : List Char)
    (hpre : 't' ∉ pre)
    (hh : h ≠ []) (hhd : ∀ c ∈ h, c.isDigit = true)
    (hm : m ≠ []) (hmd : ∀ c ∈ m, c.isDigit = true)
    (hsi : si ≠ []) (hsid : ∀ c ∈ si, c.isDigit = true)
    (hsf : sf ≠ []) (hsfd : ∀ c ∈ sf, c.isDigit = true)
    (hpost : ∀ c, post.head? = some c → c.isDigit = false) :
    parse_time (pre ++ timeMark ++ (h ++ ':' :: m ++ ':' :: si ++ '.' :: sf ++ post))
      = some ((natOfDigits h : ℚ) * 3600 + (natOfDigits m : ℚ) * 60 +
              (natOfDigits si : ℚ) + (natOfDigits sf : ℚ) / 10 ^ sf.length) :=
  searchLitHMS_wf 't' "ime=".toList pre h m si sf post hpre
    hh hhd hm hmd hsi hsid hsf hsfd hpost

/-- Whole-second `Duration:` lines used in concrete runs. -/
theorem parse_duration_simple (si : List Char) (hsi : si ≠ [])
    (hsid : ∀ c ∈ si, c.isDigit = true) :
    parse_duration (durLit ++
        ("00".toList ++ ':' :: "00".toList ++ ':' :: si ++ '.' :: "00".toList ++ []))
      = some (natOfDigits si : ℚ) := by
  have h := parse_duration_wf [] "00".toList "00".toList si "00".toList []
    (by simp) (by decide) (by decide) (by decide) (by decide) hsi hsid
    (by decide) (by decide) (by simp)
  simp only [List.nil_append] at h
  rw [h, show natOfDigits "00".toList = 0 from rfl]
  norm_num

/-- Whole-second `time=` lines used in concrete runs. -/
theorem parse_time_simple (si : List Char) (hsi : si ≠ [])
    (hsid : ∀ c ∈ si, c.isDigit = true) :
    parse_time (timeMark ++
        ("00".toList ++ ':' :: "00".toList ++ ':' :: si ++ '.' :: "00".toList ++ []))
      = some (natOfDigits si : ℚ) := by
  have h := parse_time_wf [] "00".toList "00".toList si "00".toList []
    (by simp) (by decide) (by decide) (by decide) (by decide) hsi hsid
    (by decide) (by decide) (by simp)
  simp only [List.nil_append] at h
  rw [h, show natOfDigits "00".toList = 0 from rfl]
  norm_num

/-- The line `Duration: 00:00:10.00` parses to 10 seconds. -/
theorem parse_duration_ten :
    parse_duration "Duration: 00:00:10.00".toList = some (10 : ℚ) := by
  rw [show "Duration: 00:00:10.00".toList = durLit ++
      ("00".toList ++ ':' :: "00".toList ++ ':' :: "10".toList ++ '.' :: "00".toList ++ [])
    from by decide]
  rw [parse_duration_simple "10".toList (by decide) (by decide)]
  rw [show natOfDigits "10".toList = 10 from rfl]
  norm_num

/-- The line `Duration: 00:00:20.00` parses to 20 seconds. -/
theorem parse_duration_twenty :
    parse_duration "Duration: 00:00:20.00".toList = some (20 : ℚ) := by
  rw [show "Duration: 00:00:20.00".toList = durLit ++
      ("00".toList ++ ':' :: "00".toList ++ ':' :: "20".toList ++ '.' :: "00".toList ++ [])
    from by decide]
  rw [parse_duration_simple "20".toList (by decide) (by decide)]
  rw [show natOfDigits "20".toList = 20 from rfl]
  norm_num

/-- The line `Duration: 00:00:00.00` parses to 0 seconds. -/
theorem parse_duration_zero :
    parse_duration "Duration: 00:00:00.00".toList = some (0 : ℚ) := by
  rw [show "Duration: 00:00:00.00".toList = durLit ++
      ("00".toList ++ ':' :: "00".toList ++ ':' :: "00".toList ++ '.' :: "00".toList ++ [])
    from by decide]
  rw [parse_duration_simple "00".toList (by decide) (by decide)]
  rw [show natOfDigits "00".toList = 0 from rfl]
  norm_num

/-- The line `time=00:00:05.00` parses to 5 seconds. -/
theorem parse_time_five :
    parse_time "time=00:00:05.00".toList = some (5 : ℚ) := by
  rw [show "time=00:00:05.00".toList = timeMark ++
      ("00".toList ++ ':' :: "00".toList ++ ':' :: "05".toList ++ '.' :: "00".toList ++ [])
    from by decide]
  rw [parse_time_simple "05".toList (by decide) (by decide)]
  rw [show natOfDigits "05".toList = 5 from rfl]
  norm_num

/-- The line `time=00:00:01.00` parses to 1 second. -/
theorem parse_time_one :
    parse_time "time=00:00:01.00".toList = some (1 : ℚ) := by
  rw [show "time=00:00:01.00".toList = timeMark ++
      ("00".toList ++ ':' :: "00".toList ++ ':' :: "01".toList ++ '.' :: "00".toList ++ [])
    from by decide]
  rw [parse_time_simple "01".toList (by decide) (by decide)]
  rw [show natOfDigits "01".toList = 1 from rfl]
  norm_num

/-- Expression of `pyStrip` in terms of Mathlib's right-drop. -/
theorem pyStrip_eq (x : List Char) :
    pyStrip x = List.rdropWhile pyIsSpace (List.dropWhile pyIsSpace x) := rfl

/-- Python `str.strip()` is idempotent. -/
theorem pyStrip_idem (l : List Char) : pyStrip (pyStrip l) = pyStrip l := by
  rw [pyStrip_eq l, pyStrip_eq]
  set A := List.dropWhile pyIsSpace l with hA
  set B := List.rdropWhile pyIsSpace A with hB
  have hAidem : List.dropWhile pyIsSpace A = A := by
    rw [hA]; exact List.dropWhile_idempotent _ _
  have hdropB : List.dropWhile pyIsSpace B = B := by
    rw [List.dropWhile_eq_self_iff]
    intro hl
    have hBA : B <+: A := List.rdropWhile_prefix _ _
    have hAl : 0 < A.length := lt_of_lt_of_le hl hBA.length_le
    have hget : B.get ⟨0, hl⟩ = A.get ⟨0, hAl⟩ := by
      simpa using hBA.getElem (by simpa using hl)
    rw [hget]
    exact (List.dropWhile_eq_self_iff.mp hAidem) hAl
  rw [hdropB, hB]
  exact List.rdropWhile_idempotent _ _

end ParserLemmas

/-- The conversion line parser's emitting case: `time=` present, time
text parsed, duration (after this line's `Duration:` update) nonzero. -/
theorem conv_time_emit (dur : Option ℚ) (line : List Char) (d c : ℚ)
    (hd : durUpdate dur line = some d) (hdz : d ≠ 0)
    (ht : containsSub timeMark line = true) (hpt : parse_time line = some c) :
    conv_line_parse dur line = .ok (some d, some (min (c / d) 1)) := by
  rw [conv_line_parse]
  simp only [hd, ht, hpt, Option.isSome_some, Bool.and_true, if_true]
  simp [hdz]

/-- Any `Duration:`-marked line reassigns the duration field to its own
parse result. -/
theorem durUpdate_pos (dur : Option ℚ) (line : List Char)
    (h : containsSub durMark line = true) :
    durUpdate dur line = parse_duration line := by
  rw [durUpdate]; simp [h]

/-- A line without the `Duration:` marker leaves the duration field
untouched. -/
theorem durUpdate_neg (dur : Option ℚ) (line : List Char)
    (h : containsSub durMark line = false) :
    durUpdate dur line = dur := by
  rw [durUpdate]; simp [h]

/-- No `time=` marker: no emission, no exception. -/
theorem conv_noTime (dur : Option ℚ) (line : List Char)
    (ht : containsSub timeMark line = false) :
    conv_line_parse dur line = .ok (durUpdate dur line, none) := by
  rw [conv_line_parse]
  simp [ht]

/-- Unparsable time text: no emission, no exception. -/
theorem conv_noParse (dur : Option ℚ) (line : List Char)
    (hpt : parse_time line = none) :
    conv_line_parse dur line = .ok (durUpdate dur line, none) := by
  rw [conv_line_parse]
  by_cases hb : (containsSub timeMark line && (durUpdate dur line).isSome) = true <;>
    simp [hb, hpt]

/-- Unset duration: no emission, no exception. -/
theorem conv_noDur (dur : Option ℚ) (line : List Char)
    (hdn : durUpdate dur line = none) :
    conv_line_parse dur line = .ok (durUpdate dur line, none) := by
  rw [conv_line_parse]
  simp [hdn]

/-- Zero duration with parsable time text: the Python division raises
`ZeroDivisionError`. -/
theorem conv_zeroDur (dur : Option ℚ) (line : List Char) (c : ℚ)
    (h0 : durUpdate dur line = some 0) (ht : containsSub timeMark line = true)
    (hpt : parse_time line = some c) :
    conv_line_parse dur line = .error () := by
  rw [conv_line_parse]
  simp [h0, ht, hpt]

/-- A one-line conversion job whose line parses without an exception. -/
theorem runConversionTrace_singleton_ok (dur dur' : Option ℚ) (p : Option ℚ)
    (l : List Char) (code : ℤ)
    (h : conv_line_parse dur l = .ok (dur', p)) :
    runConversionTrace dur [l] none code
      = Ev.line l :: ((match p with | some q => [Ev.prog q] | none => []) ++ [Ev.fin code]) := by
  rw [runConversionTrace, runWorker]
  have hloop : runLoop (ρ := Empty) conv_line_parse [l] none dur
      = (Ev.line l :: ((match p with | some q => [Ev.prog q] | none => []) ++ []),
         [l], dur', Outcome.normal) := by
    rw [runLoop]
    simp [h, decCancel, runLoop]
  rw [hloop]
  rcases p with _ | q <;> simp

/-- A two-line conversion job whose second line raises in the parser. -/
theorem runConversionTrace_pair_exn (dur dur1 : Option ℚ) (l1 l2 : List Char) (code : ℤ)
    (h1 : conv_line_parse dur l1 = .ok (dur1, none))
    (h2 : conv_line_parse dur1 l2 = .error ()) :
    runConversionTrace dur [l1, l2] none code = [Ev.line l1, Ev.line l2, Ev.err] := by
  rw [runConversionTrace, runWorker]
  have hloop : runLoop (ρ := Empty) conv_line_parse [l1, l2] none dur
      = ([Ev.line l1, Ev.line l2], [l1, l2], dur1, Outcome.exn) := by
    rw [runLoop]
    simp [h1, h2, decCancel, runLoop]
  rw [hloop]
  rfl

/-- Streaming-loop events are neither `finished`, nor `result`, nor
`error` events. -/
theorem countP_line_prog_zero {ρ : Type} (evs : List (Ev ρ))
    (h : ∀ e ∈ evs, isLineEv e = true ∨ isProgEv e = true) :
    evs.countP isFinEv = 0 ∧ evs.countP isResEv = 0 ∧ evs.countP isErrEv = 0 := by
  refine ⟨List.countP_eq_zero.mpr ?_, List.countP_eq_zero.mpr ?_,
    List.countP_eq_zero.mpr ?_⟩ <;>
  · intro e he
    rcases h e he with h' | h' <;> rcases e <;>
      simp_all [isLineEv, isProgEv, isFinEv, isResEv, isErrEv]

/-- C9: the worker stop operation (`FFmpegWorker.stop`) is idempotent — calling it twice yields the
same worker state and the same (empty) list of emitted events as calling
it once — and, being a single flag assignment embedded as a total
function, it never raises for any worker state. -/
theorem stop_idempotent_spec {σ ρ : Type} (w : FFmpegWorker σ ρ) :
    stop (stop w).1 = stop w ∧ (stop w).2 = ([] : List (Ev ρ)) ∧
    (stop w).1.is_running = false ∧
    (stop w).1.collected_lines = w.collected_lines ∧
    (stop w).1.command = w.command :=
  ⟨rfl, rfl, rfl, rfl, rfl⟩

/-- C7: the metadata-probe final parser returns an absent result on any
non-zero exit code regardless of the accumulated lines, and otherwise
returns exactly what decoding the newline-join of the lines yields
(absent on decode failure, the decoded structure on success); moreover a
probe job's trace carries the parser's value in a `result` event and
never an `error` event, so decode failure is not escalated. -/
theorem file_info_parser_spec :
    (∀ (ρ : Type) (decode : List Char → Option ρ) (lines : List (List Char)) (c : ℤ),
      run_get_file_info_final_parse decode lines c =
        if c = 0 then decode (List.intercalate ['\n'] lines) else none) ∧
    (∀ (ρ : Type) (decode : List Char → Option ρ) (lines : List (List Char)) (c : ℤ),
      runWorker default_line_parse (some (run_get_file_info_final_parse decode))
          lines none c () =
        lines.map Ev.line ++
          [Ev.fin c, Ev.res (run_get_file_info_final_parse decode lines c)]) := by
  constructor
  · intro ρ decode lines c
    rw [run_get_file_info_final_parse]
    by_cases hc : c = 0 <;> simp [hc]
  · intro ρ decode lines c
    rw [runWorker, runLoop_default]
    simp

/-- C8: for every well-formed line containing a `Duration: H:MM:SS.ms` stamp
(prefix free of the pattern's leading `D`, timestamp digits followed by
a non-digit), the parsed duration equals `H*3600 + M*60 + S` exactly,
with `S` the exact rational value of `SS.ms`; in particular
`Duration: 01:02:03.50` parses to `3723.5`.  Conversely a successful
parse always comes from a suffix matching the full pattern, and a line
not containing the literal `Duration: ` parses to nothing. -/
theorem parse_duration_spec :
    (∀ pre h m si sf post : List Char,
      'D' ∉ pre →
      h ≠ [] → (∀ c ∈ h, c.isDigit = true) →
      m ≠ [] → (∀ c ∈ m, c.isDigit = true) →
      si ≠ [] → (∀ c ∈ si, c.isDigit = true) →
      sf ≠ [] → (∀ c ∈ sf, c.isDigit = true) →
      (∀ c, post.head? = some c → c.isDigit = false) →
      parse_duration (pre ++ durLit ++ (h ++ ':' :: m ++ ':' :: si ++ '.' :: sf ++ post))
        = some ((natOfDigits h : ℚ) * 3600 + (natOfDigits m : ℚ) * 60 +
                (natOfDigits si : ℚ) + (natOfDigits sf : ℚ) / 10 ^ sf.length)) ∧
    parse_duration "Duration: 01:02:03.50".toList = some ((7447 : ℚ) / 2) ∧
    (∀ line v, parse_duration line = some v →
      ∃ tail, tail <:+ line ∧ matchLitHMS durLit tail = some v) ∧
    (∀ line, containsSub durLit line = false → parse_duration line = none) := by
  refine ⟨parse_duration_wf, ?_, fun line v hv => searchLitHMS_some _ _ _ hv,
    fun line hl => searchLitHMS_none _ _ hl⟩
  rw [show "Duration: 01:02:03.50".toList = [] ++ durLit ++
      ("01".toList ++ ':' :: "02".toList ++ ':' :: "03".toList ++ '.' :: "50".toList ++ [])
    from by decide]
  rw [parse_duration_wf [] "01".toList "02".toList "03".toList "50".toList []
    (by decide) (by decide) (by decide) (by decide) (by decide) (by decide) (by decide)
    (by decide) (by decide) (by simp)]
  rw [show natOfDigits "01".toList = 1 from rfl, show natOfDigits "02".toList = 2 from rfl,
    show natOfDigits "03".toList = 3 from rfl, show natOfDigits "50".toList = 50 from rfl,
    show ("50".toList).length = 2 from rfl]
  norm_num

/-- Witness for C8: the hypotheses of the well-formed-line clause are
satisfiable, e.g. on `Duration: 01:02:03.50` itself decomposed as
prefix/timestamp/suffix. -/
theorem parse_duration_spec_witness :
    parse_duration ([] ++ durLit ++
        ("01".toList ++ ':' :: "02".toList ++ ':' :: "03".toList ++ '.' :: "50".toList ++ []))
      = some ((natOfDigits "01".toList : ℚ) * 3600 + (natOfDigits "02".toList : ℚ) * 60 +
              (natOfDigits "03".toList : ℚ) + (natOfDigits "50".toList : ℚ) / 10 ^ "50".toList.length) :=
  parse_duration_spec.1 [] _ _ _ _ [] (by decide) (by decide) (by decide) (by decide)
    (by decide) (by decide) (by decide) (by decide) (by decide) (by simp)

/-- C1 (amended): a progress fraction is emitted for a line exactly when
the line contains `time=`, its time text parses, and the duration field
(after this line's own `Duration:` update) holds a nonzero value; the
emitted value is `min(current/duration, 1.0)` and never exceeds `1.0`.
When the time text parses but the duration value is `0.0`, the parser
raises (division by zero) instead of emitting; when the line has no
`time=`, the time text fails to parse, or duration is unset, nothing is
emitted and nothing is raised. -/
theorem progress_emission_spec (dur : Option ℚ) (line : List Char) :
    (∀ d c, durUpdate dur line = some d → d ≠ 0 →
      containsSub timeMark line = true → parse_time line = some c →
      conv_line_parse dur line = .ok (some d, some (min (c / d) 1)) ∧
        min (c / d) 1 ≤ 1) ∧
    (containsSub timeMark line = false →
      conv_line_parse dur line = .ok (durUpdate dur line, none)) ∧
    (parse_time line = none →
      conv_line_parse dur line = .ok (durUpdate dur line, none)) ∧
    (durUpdate dur line = none →
      conv_line_parse dur line = .ok (durUpdate dur line, none)) ∧
    (∀ c, durUpdate dur line = some 0 → containsSub timeMark line = true →
      parse_time line = some c → conv_line_parse dur line = .error ()) := by
  refine ⟨?_, ?_, ?_, ?_, ?_⟩
  · intro d c hd hdz ht hpt
    exact ⟨conv_time_emit dur line d c hd hdz ht hpt, min_le_right _ _⟩
  · intro ht
    exact conv_noTime dur line ht
  · intro hpt
    exact conv_noParse dur line hpt
  · intro hdn
    exact conv_noDur dur line hdn
  · intro c h0 ht hpt
    exact conv_zeroDur dur line c h0 ht hpt

/-- Witness for C1 (amended): at `duration = 10.0` and line
`time=00:00:05.00`, a fraction `min(5/10, 1)` is emitted and is at most
one. -/
theorem progress_emission_spec_witness :
    durUpdate (some 10) "time=00:00:05.00".toList = some 10 ∧
    conv_line_parse (some 10) "time=00:00:05.00".toList
      = .ok (some 10, some (min ((5 : ℚ) / 10) 1)) ∧
    min ((5 : ℚ) / 10) 1 ≤ 1 := by
  have hdu : durUpdate (some 10) "time=00:00:05.00".toList = some 10 :=
    durUpdate_neg _ _ (by decide)
  have h := (progress_emission_spec (some 10) "time=00:00:05.00".toList).1 10 5
    hdu (by norm_num) (by decide) parse_time_five
  exact ⟨hdu, h.1, h.2⟩

/-- Counterexample to C1 as stated: on the job
`["Duration: 00:00:00.00", "time=00:00:01.00"]` the second line contains
`time=`, its time text parses (to 1.0) and duration is set (to 0.0), yet
no progress event is emitted: the division raises and the job trace ends
in a single error event. -/
theorem progress_emission_cex :
    runConversionTrace none
        ["Duration: 00:00:00.00".toList, "time=00:00:01.00".toList] none 0
      = [Ev.line "Duration: 00:00:00.00".toList,
         Ev.line "time=00:00:01.00".toList, Ev.err] ∧
    conv_line_parse none "Duration: 00:00:00.00".toList = .ok (some 0, none) ∧
    containsSub timeMark "time=00:00:01.00".toList = true ∧
    parse_time "time=00:00:01.00".toList = some 1 := by
  have hA : conv_line_parse none "Duration: 00:00:00.00".toList = .ok (some 0, none) := by
    have h := conv_noTime none "Duration: 00:00:00.00".toList (by decide)
    rw [durUpdate_pos none _ (by decide), parse_duration_zero] at h
    exact h
  have hB : conv_line_parse (some 0) "time=00:00:01.00".toList = .error () :=
    conv_zeroDur (some 0) _ 1 (by rw [durUpdate_neg _ _ (by decide)]) (by decide)
      parse_time_one
  exact ⟨runConversionTrace_pair_exn _ _ _ _ _ hA hB, hA, by decide, parse_time_one⟩

/-- C2 (amended): every line containing the `Duration:` marker (and no
`time=` marker) unconditionally overwrites the duration field with that
line's parse result — a later well-formed `Duration:` line replaces the
stored value and a malformed one resets it to unset — and raises no
error; a line without the marker leaves the field untouched. -/
theorem duration_overwrite_spec :
    (∀ (dur : Option ℚ) (line : List Char),
      containsSub durMark line = true → containsSub timeMark line = false →
      conv_line_parse dur line = .ok (parse_duration line, none)) ∧
    (∀ (dur : Option ℚ) (line : List Char),
      containsSub durMark line = false → durUpdate dur line = dur) := by
  constructor
  · intro dur line h1 h2
    have h := conv_noTime dur line h2
    rw [durUpdate_pos dur line h1] at h
    exact h
  · intro dur line h
    exact durUpdate_neg dur line h

/-- Witness for C2 (amended): a second `Duration:` line is reparsed and
overwrites the field. -/
theorem duration_overwrite_spec_witness :
    conv_line_parse (some 10) "Duration: 00:00:20.00".toList
      = .ok (parse_duration "Duration: 00:00:20.00".toList, none) :=
  duration_overwrite_spec.1 (some 10) _ (by decide) (by decide)

/-- Counterexample to C2 as stated: with duration already set to 10.0, a
second well-formed `Duration:` line overwrites it with 20.0, and a
malformed `Duration: N/A` line resets it to unset rather than leaving it
unchanged. -/
theorem duration_overwrite_cex :
    conv_line_parse none "Duration: 00:00:10.00".toList = .ok (some 10, none) ∧
    conv_line_parse (some 10) "Duration: 00:00:20.00".toList = .ok (some 20, none) ∧
    (20 : ℚ) ≠ 10 ∧
    conv_line_parse (some 10) "Duration: N/A".toList = .ok (none, none) := by
  refine ⟨?_, ?_, by norm_num, ?_⟩
  · have h := conv_noTime none "Duration: 00:00:10.00".toList (by decide)
    rw [durUpdate_pos none _ (by decide), parse_duration_ten] at h
    exact h
  · have h := conv_noTime (some 10) "Duration: 00:00:20.00".toList (by decide)
    rw [durUpdate_pos _ _ (by decide), parse_duration_twenty] at h
    exact h
  · have h := conv_noTime (some 10) "Duration: N/A".toList (by decide)
    rw [durUpdate_pos _ _ (by decide),
      show parse_duration "Duration: N/A".toList = none from by decide] at h
    exact h

/-- C3 (amended): each job's worker starts with a fresh, empty
accumulated-line buffer and a set running flag, but the backend's
duration field is *not* reset at job start: a nonzero duration left over
from an earlier job makes the very first `time=` line of a new job emit
a progress fraction even though the new job has seen no `Duration:`
line. -/
theorem job_start_state_spec :
    (∀ (σ ρ : Type) (cmd : List (List Char))
       (lp : σ → List Char → Except Unit (σ × Option ℚ))
       (fp : Option (List (List Char) → ℤ → ρ)),
      (mkFFmpegWorker cmd lp fp).collected_lines = [] ∧
      (mkFFmpegWorker cmd lp fp).is_running = true) ∧
    (∀ (d c : ℚ) (tline : List Char), d ≠ 0 →
      containsSub durMark tline = false → containsSub timeMark tline = true →
      parse_time tline = some c →
      runConversionTrace (some d) [tline] none 0
        = [Ev.line tline, Ev.prog (min (c / d) 1), Ev.fin 0]) := by
  constructor
  · intro σ ρ cmd lp fp
    exact ⟨rfl, rfl⟩
  · intro d c tline hd htd htt hpt
    have hdu : durUpdate (some d) tline = some d := durUpdate_neg _ _ htd
    have hA : conv_line_parse (some d) tline = .ok (some d, some (min (c / d) 1)) :=
      conv_time_emit (some d) tline d c hdu hd htt hpt
    rw [runConversionTrace_singleton_ok _ _ _ _ _ hA]
    rfl

/-- Witness for C3 (amended): a stale duration of 10.0 makes the first
line `time=00:00:05.00` of a fresh job emit `min(5/10, 1)`. -/
theorem job_start_state_spec_witness :
    (10 : ℚ) ≠ 0 ∧
    runConversionTrace (some 10) ["time=00:00:05.00".toList] none 0
      = [Ev.line "time=00:00:05.00".toList, Ev.prog (min ((5 : ℚ) / 10) 1), Ev.fin 0] :=
  ⟨by norm_num,
   job_start_state_spec.2 10 5 _ (by norm_num) (by decide) (by decide) parse_time_five⟩

/-- Counterexample to C3 as stated: the same single-line job emits a
progress fraction when a previous job left `duration = 10.0` behind, and
emits none when the backend is fresh — so state carried over from a
previous job does influence the new job's progress emissions. -/
theorem job_start_state_cex :
    runConversionTrace (some 10) ["time=00:00:05.00".toList] none 0
      = [Ev.line "time=00:00:05.00".toList, Ev.prog ((1 : ℚ) / 2), Ev.fin 0] ∧
    runConversionTrace none ["time=00:00:05.00".toList] none 0
      = [Ev.line "time=00:00:05.00".toList, Ev.fin 0] := by
  constructor
  · have hdu : durUpdate (some 10) "time=00:00:05.00".toList = some 10 :=
      durUpdate_neg _ _ (by decide)
    have hA : conv_line_parse (some 10) "time=00:00:05.00".toList
        = .ok (some 10, some (min ((5 : ℚ) / 10) 1)) :=
      conv_time_emit _ _ 10 5 hdu (by norm_num) (by decide) parse_time_five
    rw [runConversionTrace_singleton_ok _ _ _ _ _ hA]
    norm_num [min_def]
  · have hdn : durUpdate none "time=00:00:05.00".toList = none :=
      durUpdate_neg _ _ (by decide)
    have hB := conv_noDur none "time=00:00:05.00".toList hdn
    rw [hdn] at hB
    rw [runConversionTrace_singleton_ok _ _ _ _ _ hB]
    rfl

/-- C4 (amended): a cancel observed at the `N`-th flag poll stops the
stream after the first `N` delivered lines (no line `N+1` is delivered
and no further progress events are emitted), `on_finished` still fires
exactly once with whatever exit code the forced termination produces —
but, contrary to the claim, a configured final parser still runs on the
lines collected before cancellation and its value is still emitted as a
`result` event after `on_finished`. -/
theorem cancel_spec {σ ρ : Type} (lp : σ → List Char → Except Unit (σ × Option ℚ))
    (fp : Option (List (List Char) → ℤ → ρ)) (lines : List (List Char))
    (N : ℕ) (code : ℤ) (s0 : σ) (evs : List (Ev ρ)) (coll : List (List Char)) (s' : σ)
    (hN : N < lines.length)
    (hrun : runLoop (ρ := ρ) lp (lines.take N) none s0 = (evs, coll, s', Outcome.normal)) :
    runWorker lp fp lines (some N) code s0
      = evs ++ [Ev.fin code] ++
        (match fp with | some f => [Ev.res (f coll code)] | none => []) ∧
    coll = lines.take N ∧
    evs.filter isLineEv = (lines.take N).map Ev.line ∧
    (runWorker lp fp lines (some N) code s0).countP isFinEv = 1 ∧
    (runWorker lp fp lines (some N) code s0).countP isResEv
      = (match fp with | some _ => 1 | none => 0) := by
  have hout : (runLoop (ρ := ρ) lp (lines.take N) none s0).2.2.2 = Outcome.normal := by
    rw [hrun]
  have hcanc := runLoop_cancel lp lines N s0 hN hout
  rw [hrun] at hcanc
  have htrace : runWorker lp fp lines (some N) code s0
      = evs ++ [Ev.fin code] ++
        (match fp with | some f => [Ev.res (f coll code)] | none => []) := by
    rw [runWorker, hcanc]
  have hcoll : coll = lines.take N := by
    have h := runLoop_normal_coll lp (lines.take N) none s0 hout
    rw [hrun] at h
    exact h
  have hfl : evs.filter isLineEv = (lines.take N).map Ev.line := by
    have h := runLoop_filter_line (ρ := ρ) lp (lines.take N) none s0
    rw [hrun] at h
    rw [← hcoll]
    exact h
  have hlp : ∀ e ∈ evs, isLineEv e = true ∨ isProgEv e = true := by
    have h := runLoop_events_line_or_prog (ρ := ρ) lp (lines.take N) none s0
    rw [hrun] at h
    exact h
  obtain ⟨hfin0, hres0, -⟩ := countP_line_prog_zero evs hlp
  refine ⟨htrace, hcoll, hfl, ?_, ?_⟩
  · rw [htrace, List.countP_append, List.countP_append, hfin0]
    rcases fp with _ | f <;> simp [List.countP_cons, isFinEv]
  · rw [htrace, List.countP_append, List.countP_append, hres0]
    rcases fp with _ | f <;> simp [List.countP_cons, isResEv, isFinEv]

/-- Witness for C4 (amended): cancelling a two-line job after one line,
with no final parser configured, delivers one line and one `finished`
event only. -/
theorem cancel_spec_witness :
    runWorker (ρ := Unit) default_line_parse none ["a".toList, "b".toList] (some 1) 0 ()
      = [Ev.line "a".toList, Ev.fin 0] ∧
    (runWorker (ρ := Unit) default_line_parse none ["a".toList, "b".toList]
        (some 1) 0 ()).countP isFinEv = 1 ∧
    (runWorker (ρ := Unit) default_line_parse none ["a".toList, "b".toList]
        (some 1) 0 ()).countP isResEv = 0 := by
  have h := cancel_spec (ρ := Unit) default_line_parse none ["a".toList, "b".toList]
    1 0 () [Ev.line "a".toList] ["a".toList] () (by decide) (by rfl)
  exact ⟨h.1.trans rfl, h.2.2.2.1, h.2.2.2.2⟩

/-- Counterexample to C4 as stated: a codec-list job (final parser
configured) cancelled after one delivered line still emits a `result`
event after `on_finished` — the claim says no further result events are
emitted for a cancelled job. -/
theorem cancel_spec_cex :
    runWorker default_line_parse (some run_get_codecs_final_parse)
        ["a".toList, "b".toList] (some 1) (-9) ()
      = [Ev.line "a".toList, Ev.fin (-9), Ev.res none] ∧
    (runWorker default_line_parse (some run_get_codecs_final_parse)
        ["a".toList, "b".toList] (some 1) (-9) ()).countP isResEv = 1 := by
  constructor <;> decide

/-- C5 (amended): for a job with a final parser that streams to
completion (no exception), `on_result` is emitted exactly once and
strictly after the unique `on_finished` — but it is emitted regardless
of the exit code and of parse success, carrying whatever value
(including an absent one) the final parser returned. -/
theorem result_emission_spec {σ ρ : Type}
    (lp : σ → List Char → Except Unit (σ × Option ℚ))
    (f : List (List Char) → ℤ → ρ) (lines : List (List Char)) (c : Option ℕ)
    (code : ℤ) (s0 : σ) (evs : List (Ev ρ)) (coll : List (List Char)) (s' : σ)
    (out : Outcome)
    (hr : runLoop (ρ := ρ) lp lines c s0 = (evs, coll, s', out))
    (hout : out ≠ Outcome.exn) :
    runWorker lp (some f) lines c code s0
      = evs ++ [Ev.fin code, Ev.res (f coll code)] ∧
    (∀ e ∈ evs, isLineEv e = true ∨ isProgEv e = true) ∧
    (runWorker lp (some f) lines c code s0).countP isResEv = 1 ∧
    (runWorker lp (some f) lines c code s0).countP isFinEv = 1 := by
  have hlp : ∀ e ∈ evs, isLineEv e = true ∨ isProgEv e = true := by
    have h := runLoop_events_line_or_prog (ρ := ρ) lp lines c s0
    rw [hr] at h
    exact h
  have htrace : runWorker lp (some f) lines c code s0
      = evs ++ [Ev.fin code, Ev.res (f coll code)] := by
    rw [runWorker, hr]
    rcases out with _ | _ | _
    · simp
    · simp
    · exact absurd rfl hout
  obtain ⟨hfin0, hres0, -⟩ := countP_line_prog_zero evs hlp
  refine ⟨htrace, hlp, ?_, ?_⟩
  · rw [htrace, List.countP_append, hres0]
    simp [List.countP_cons, isResEv]
  · rw [htrace, List.countP_append, hfin0]
    simp [List.countP_cons, isFinEv]

/-- Witness for C5 (amended): a one-line codec-list job that runs to
completion emits its result exactly once, right after `finished`. -/
theorem result_emission_spec_witness :
    runWorker default_line_parse (some run_get_codecs_final_parse)
        ["x".toList] none 0 ()
      = [Ev.line "x".toList] ++
        [Ev.fin 0, Ev.res (run_get_codecs_final_parse ["x".toList] 0)] ∧
    (∀ e ∈ ([Ev.line "x".toList] : List (Ev (Option (List CodecRec)))),
      isLineEv e = true ∨ isProgEv e = true) ∧
    (runWorker default_line_parse (some run_get_codecs_final_parse)
        ["x".toList] none 0 ()).countP isResEv = 1 ∧
    (runWorker default_line_parse (some run_get_codecs_final_parse)
        ["x".toList] none 0 ()).countP isFinEv = 1 :=
  result_emission_spec default_line_parse run_get_codecs_final_parse
    ["x".toList] none 0 () [Ev.line "x".toList] ["x".toList] () Outcome.normal
    rfl (by simp)

/-- Counterexample to C5 as stated: a metadata-probe job with a
non-zero exit code still emits `on_result`, and the emitted result is
the absent value — the claim says `on_result` fires only when both the
exit-code check and the parse succeed and never carries an absent
value. -/
theorem result_emission_cex :
    runWorker default_line_parse
        (some (run_get_file_info_final_parse (fun _ => some (0 : ℕ))))
        ["{}".toList] none 1 ()
      = [Ev.line "{}".toList, Ev.fin 1, Ev.res none] ∧
    (1 : ℤ) ≠ 0 := by
  constructor <;> decide

/-- C10: when a conversion stream contains a `Duration:` line parsing to
exactly 0.0 seconds immediately followed by a well-formed `time=` line,
the progress computation divides by zero: the resulting exception aborts
streaming right after that `time=` line's `output_line` event, is
reported as exactly one `error` event, `on_finished` is never emitted,
and no progress fraction is produced for that `time=` line. -/
theorem zero_duration_abort_spec (durStart : Option ℚ) (pre : List (List Char))
    (d0line tline : List Char) (rest : List (List Char)) (code : ℤ) (c : ℚ)
    (evs : List (Ev Empty)) (coll : List (List Char)) (s' : Option ℚ)
    (hpre : runLoop (ρ := Empty) conv_line_parse pre none durStart
      = (evs, coll, s', Outcome.normal))
    (hd : containsSub durMark d0line = true)
    (hd0 : parse_duration d0line = some 0)
    (hdt : containsSub timeMark d0line = false)
    (htd : containsSub durMark tline = false)
    (htt : containsSub timeMark tline = true)
    (htp : parse_time tline = some c) :
    runConversionTrace durStart (pre ++ d0line :: tline :: rest) none code
      = evs ++ [Ev.line d0line, Ev.line tline, Ev.err] ∧
    (runConversionTrace durStart (pre ++ d0line :: tline :: rest) none code).countP
      isErrEv = 1 ∧
    (runConversionTrace durStart (pre ++ d0line :: tline :: rest) none code).countP
      isFinEv = 0 ∧
    (runConversionTrace durStart (pre ++ d0line :: tline :: rest) none code).countP
      isProgEv = evs.countP isProgEv := by
  have hA : conv_line_parse s' d0line = .ok (some 0, none) := by
    have h := conv_noTime s' d0line hdt
    rw [durUpdate_pos s' _ hd, hd0] at h
    exact h
  have hB : conv_line_parse (some 0) tline = .error () :=
    conv_zeroDur (some 0) tline c (by rw [durUpdate_neg _ _ htd]) htt htp
  have htail : runLoop (ρ := Empty) conv_line_parse (d0line :: tline :: rest) none s'
      = ([Ev.line d0line, Ev.line tline], [d0line, tline], some 0, Outcome.exn) := by
    rw [runLoop]
    simp [hA, decCancel, runLoop, hB]
  have hloop : runLoop (ρ := Empty) conv_line_parse
      (pre ++ d0line :: tline :: rest) none durStart
      = (evs ++ [Ev.line d0line, Ev.line tline], coll ++ [d0line, tline],
         some 0, Outcome.exn) := by
    rw [runLoop_append _ _ _ _ (by rw [hpre])]
    rw [hpre]
    simp [htail]
  have htrace : runConversionTrace durStart (pre ++ d0line :: tline :: rest) none code
      = evs ++ [Ev.line d0line, Ev.line tline, Ev.err] := by
    rw [runConversionTrace, runWorker, hloop]
    simp
  have hlp : ∀ e ∈ evs, isLineEv e = true ∨ isProgEv e = true := by
    have h := runLoop_events_line_or_prog (ρ := Empty) conv_line_parse pre none durStart
    rw [hpre] at h
    exact h
  obtain ⟨hfin0, -, herr0⟩ := countP_line_prog_zero evs hlp
  refine ⟨htrace, ?_, ?_, ?_⟩
  · rw [htrace, List.countP_append, herr0]
    simp [List.countP_cons, isErrEv]
  · rw [htrace, List.countP_append, hfin0]
    simp [List.countP_cons, isFinEv, isErrEv]
  · rw [htrace, List.countP_append]
    simp [List.countP_cons, isProgEv]

/-- Witness for C10: the two-line job
`["Duration: 00:00:00.00", "time=00:00:01.00"]` aborts with one error
event, no finished event and no progress event. -/
theorem zero_duration_abort_spec_witness :
    runConversionTrace none
        ["Duration: 00:00:00.00".toList, "time=00:00:01.00".toList] none 0
      = [Ev.line "Duration: 00:00:00.00".toList,
         Ev.line "time=00:00:01.00".toList, Ev.err] ∧
    (runConversionTrace none
        ["Duration: 00:00:00.00".toList, "time=00:00:01.00".toList] none 0).countP
      isErrEv = 1 ∧
    (runConversionTrace none
        ["Duration: 00:00:00.00".toList, "time=00:00:01.00".toList] none 0).countP
      isFinEv = 0 ∧
    (runConversionTrace none
        ["Duration: 00:00:00.00".toList, "time=00:00:01.00".toList] none 0).countP
      isProgEv = 0 :=
  zero_duration_abort_spec none [] "Duration: 00:00:00.00".toList
    "time=00:00:01.00".toList [] 0 1 [] [] none rfl (by decide) parse_duration_zero
    (by decide) (by decide) (by decide) parse_time_one

/-- Before the separator (and with no separator in sight), every line is
skipped. -/
theorem codecLoop_skip_all (lines : List (List Char))
    (h : ∀ l ∈ lines, pyStrip l ≠ dashes6) :
    codecLoop lines false = [] := by
  induction lines with
  | nil => rfl
  | cons l ls ih =>
      rw [codecLoop]
      simp only [pyStrip_idem, Bool.not_false, if_true]
      rw [if_neg (h l (by simp)), ih (fun x hx => h x (by simp [hx]))]

/-- The scanning loop enters reading mode at the first line whose
stripped text is the six-dash separator. -/
theorem codecLoop_enter (pre : List (List Char)) (sep : List Char)
    (post : List (List Char))
    (hpre : ∀ l ∈ pre, pyStrip l ≠ dashes6) (hsep : pyStrip sep = dashes6) :
    codecLoop (pre ++ sep :: post) false = codecLoop post true := by
  induction pre with
  | nil =>
      rw [List.nil_append, codecLoop]
      simp only [pyStrip_idem]
      rw [if_pos hsep]
  | cons l ls ih =>
      rw [List.cons_append, codecLoop]
      simp only [pyStrip_idem, Bool.not_false, if_true]
      rw [if_neg (hpre l (by simp)), ih (fun x hx => hpre x (by simp [hx]))]

/-- C6 (amended): the codec-list final parser returns an absent result
on a non-zero exit code; on exit code 0 it skips all lines until a line
whose text, *stripped of surrounding whitespace*, equals six dashes
(contrary to the claim's "consisting exactly of six dashes"); after
that, each non-separator line with at least three whitespace-separated
tokens yields exactly one record — flags from the first token, codec
name from the second, description from the remaining tokens rejoined
with single spaces and trimmed — lines with fewer than three tokens
yield nothing, and with no separator at all no records are produced. -/
theorem codec_parser_spec :
    (∀ (lines : List (List Char)) (c : ℤ), c ≠ 0 →
      run_get_codecs_final_parse lines c = none) ∧
    (∀ lines : List (List Char), (∀ l ∈ lines, pyStrip l ≠ dashes6) →
      run_get_codecs_final_parse lines 0 = some []) ∧
    (∀ (pre : List (List Char)) (sep : List Char) (post : List (List Char)),
      (∀ l ∈ pre, pyStrip l ≠ dashes6) → pyStrip sep = dashes6 →
      codecLoop (pre ++ sep :: post) false = codecLoop post true) ∧
    (∀ (l : List Char) (ls : List (List Char)), pyStrip l ≠ dashes6 →
      3 ≤ (pySplit l).length →
      codecLoop (l :: ls) true =
        { codec := ((pySplit l).drop 1).headD [],
          flags := (pySplit l).headD [],
          description := pyStrip (List.intercalate [' '] ((pySplit l).drop 2)) } ::
        codecLoop ls true) ∧
    (∀ (l : List Char) (ls : List (List Char)), pyStrip l ≠ dashes6 →
      (pySplit l).length < 3 → codecLoop (l :: ls) true = codecLoop ls true) := by
  refine ⟨?_, ?_, codecLoop_enter, ?_, ?_⟩
  · intro lines c hc
    rw [run_get_codecs_final_parse, if_pos hc]
  · intro lines h
    rw [run_get_codecs_final_parse, if_neg (by simp), codecLoop_skip_all lines h]
  · intro l ls hne hlen
    rw [codecLoop]
    simp [pyStrip_idem, hne, Nat.not_lt.mpr hlen]
  · intro l ls hne hlen
    rw [codecLoop]
    simp [pyStrip_idem, hne, hlen]

/-- Witness for C6 (amended): a whitespace-padded separator line enters
reading mode and the header line before it yields nothing; a
well-formed encoder line after it yields one record. -/
theorem codec_parser_spec_witness :
    codecLoop (["header".toList] ++ " ------".toList ::
        [" V....D h264   H.264 / AVC".toList]) false
      = codecLoop [" V....D h264   H.264 / AVC".toList] true ∧
    codecLoop [" V....D h264   H.264 / AVC".toList] true
      = [{ codec := ((pySplit " V....D h264   H.264 / AVC".toList).drop 1).headD [],
           flags := (pySplit " V....D h264   H.264 / AVC".toList).headD [],
           description := pyStrip (List.intercalate [' ']
             ((pySplit " V....D h264   H.264 / AVC".toList).drop 2)) }] ∧
    run_get_codecs_final_parse ["x".toList] 1 = none :=
  ⟨codec_parser_spec.2.2.1 ["header".toList] " ------".toList
      [" V....D h264   H.264 / AVC".toList] (by decide) (by decide),
   codec_parser_spec.2.2.2.1 " V....D h264   H.264 / AVC".toList [] (by decide)
      (by decide),
   codec_parser_spec.1 ["x".toList] 1 (by decide)⟩

/-- Counterexample to C6 as stated: on the input
`[" ------", " V....D h264   H.264 / AVC"]` no line consists exactly of
six dashes, so by the claim no record may be produced — yet the parser
strips the line before comparing, accepts `" ------"` as the separator,
and yields the `h264` record. -/
theorem codec_parser_cex :
    run_get_codecs_final_parse
        [" ------".toList, " V....D h264   H.264 / AVC".toList] 0
      = some [{ codec := "h264".toList, flags := "V....D".toList,
                description := "H.264 / AVC".toList }] ∧
    (∀ l ∈ ([" ------".toList, " V....D h264   H.264 / AVC".toList] :
        List (List Char)), l ≠ dashes6) := by
  constructor <;> decide

end FfmpegPyGui
